import Mathlib

/-!
# Verification of the `Bikeparty` Neopixel driver (`neopixel.py`)

A shallow embedding of the pure, observable behaviour of the `Neopixel`
class from `src/neopixel.py` (pixel buffer construction, brightness
clamping, pixel packing, range fills, rotation, segmented gradients),
together with theorems settling the specification claims about it.

Modelling conventions:
* Python ints are `ℤ` (unbounded); the packed-word array `array.array("I", ...)`
  holds naturals, and storing a value outside `[0, 2^32)` raises
  `OverflowError`, which (like every other Python exception: `IndexError`,
  `ValueError`, `ZeroDivisionError`) is modelled by `Option.none`.
* `round(...)` in the source operates on Python floats.  For every claim
  settled here the float computation agrees with exact rational arithmetic
  (channel/brightness scaling `c * (b/255)` with `c, b ∈ [0,255]` is never
  closer than `1/510` to a half-integer, far beyond double rounding error),
  so `round` is embedded as round-half-to-even on `ℚ`.
* `self.mode = set(mode)` is only ever consulted via membership tests, so
  the mode set is kept as the `List Char` of the mode string.
-/

/-- Python's `round` (round half to even) on an exact rational, as used by
`set_pixel` and the gradient helpers in `neopixel.py`.  `f` is `⌊q⌋`
(`num.fdiv den` with `den > 0`) and `r/den` is the fractional part, compared
against `1/2` by cross-multiplication so that the whole computation stays in
`ℤ` (the `Rat` field operations are `@[irreducible]` and would block kernel
evaluation). -/
def pyRound (q : ℚ) : ℤ :=
  let f : ℤ := q.num.fdiv q.den
  let r : ℤ := q.num - f * q.den
  if 2 * r < (q.den : ℤ) then f
  else if (q.den : ℤ) < 2 * r then f + 1
  else if f % 2 = 0 then f else f + 1

/-- The state of a `Neopixel` object: the packed-word array `self.pixels`,
the mode character set `self.mode`, the four entries of the `self.shift`
dictionary, `self.num_leds` and `self.brightnessvalue`.  (The PIO state
machine, pin and reset-delay fields drive hardware only and carry no
buffer-observable state.) -/
structure Neopixel where
  pixels : List ℕ
  mode : List Char
  shiftR : ℤ
  shiftG : ℤ
  shiftB : ℤ
  shiftW : ℤ
  num_leds : ℤ
  brightnessvalue : ℤ
deriving DecidableEq, Repr

/-- `Neopixel.__init__` (`neopixel.py` lines 73-89): builds the zeroed
packed-word array and the `shift` dictionary.  `mode.index(c)` raises
`ValueError` when `c` does not occur in the mode string, hence the
membership guards; there is no other validation in the constructor. -/
def pyInit (num_leds : ℤ) (mode : List Char) : Option Neopixel :=
  let pixels : List ℕ := List.replicate num_leds.toNat 0
  if 'W' ∈ mode then
    if 'R' ∈ mode ∧ 'G' ∈ mode ∧ 'B' ∈ mode then
      some { pixels := pixels, mode := mode,
             shiftR := ((mode.indexOf 'R' ^^^ 3 : ℕ) : ℤ) * 8,
             shiftG := ((mode.indexOf 'G' ^^^ 3 : ℕ) : ℤ) * 8,
             shiftB := ((mode.indexOf 'B' ^^^ 3 : ℕ) : ℤ) * 8,
             shiftW := ((mode.indexOf 'W' ^^^ 3 : ℕ) : ℤ) * 8,
             num_leds := num_leds, brightnessvalue := 255 }
    else none
  else
    if 'R' ∈ mode ∧ 'G' ∈ mode ∧ 'B' ∈ mode then
      some { pixels := pixels, mode := mode,
             shiftR := (((mode.indexOf 'R' ^^^ 3 : ℕ) : ℤ) - 1) * 8,
             shiftG := (((mode.indexOf 'G' ^^^ 3 : ℕ) : ℤ) - 1) * 8,
             shiftB := (((mode.indexOf 'B' ^^^ 3 : ℕ) : ℤ) - 1) * 8,
             shiftW := 0,
             num_leds := num_leds, brightnessvalue := 255 }
    else none

/-- `Neopixel.brightness` (`neopixel.py` lines 92-105).  Called with `None`
it returns the current value without mutating; otherwise it clamps the
argument to `[1, 255]` and stores it (returning Python `None`). -/
def Neopixel.brightness (self : Neopixel) (b : Option ℤ) : Option ℤ × Neopixel :=
  match b with
  | none => (some self.brightnessvalue, self)
  | some v =>
    let v1 := if v < 1 then 1 else v
    let v2 := if v1 > 255 then 255 else v1
    (none, { self with brightnessvalue := v2 })

/-- The packed-word computation inside `Neopixel.set_pixel` (`neopixel.py`
lines 210-227), i.e. everything before the single store
`self.pixels[pixel_num] = ...`.  `rgb_w[k]` raises `IndexError` when the
colour has fewer than 3 channels; a negative shift raises `ValueError`, and
a negative scaled channel makes the packed value negative, which the
`array("I")` store rejects (`OverflowError`) — all modelled as `none`.
`self.brightness()` returns `self.brightnessvalue`. -/
def Neopixel.packedWord (self : Neopixel) (rgb_w : List ℤ) : Option ℕ := do
  let r0 ← rgb_w.get? 0
  let g0 ← rgb_w.get? 1
  let b0 ← rgb_w.get? 2
  -- `round(rgb_w[k] * (self.brightness() / 255))`: the argument as an exact
  -- rational is `(rgb_w[k] * brightnessvalue) / 255`.
  let red := pyRound (Rat.divInt (r0 * self.brightnessvalue) 255)
  let green := pyRound (Rat.divInt (g0 * self.brightnessvalue) 255)
  let blue := pyRound (Rat.divInt (b0 * self.brightnessvalue) 255)
  let white : ℤ :=
    if rgb_w.length = 4 ∧ 'W' ∈ self.mode then
      pyRound (Rat.divInt (rgb_w.getD 3 0 * self.brightnessvalue) 255)
    else 0
  if 0 ≤ self.shiftW ∧ 0 ≤ self.shiftB ∧ 0 ≤ self.shiftR ∧ 0 ≤ self.shiftG ∧
     0 ≤ red ∧ 0 ≤ green ∧ 0 ≤ blue ∧ 0 ≤ white then
    let word := white.toNat <<< self.shiftW.toNat ||| blue.toNat <<< self.shiftB.toNat |||
                red.toNat <<< self.shiftR.toNat ||| green.toNat <<< self.shiftG.toNat
    if word < 2 ^ 32 then some word else none
  else none

/-- `Neopixel.set_pixel` (`neopixel.py` lines 210-227): compute the packed
word, then execute the store `self.pixels[pixel_num] = word` with Python
sequence-index semantics (negative indices in `[-len, -1]` wrap to the end;
anything further out raises `IndexError`). -/
def Neopixel.set_pixel (self : Neopixel) (pixel_num : ℤ) (rgb_w : List ℤ) :
    Option Neopixel := do
  let word ← self.packedWord rgb_w
  let n : ℤ := self.pixels.length
  if -n ≤ pixel_num ∧ pixel_num < n then
    some { self with
           pixels := self.pixels.set (if pixel_num < 0 then pixel_num + n else pixel_num).toNat word }
  else none

/-- Spec-side lane extraction: the 8-bit field of the packed word `w`
starting at bit offset `sh` (the inverse of the left-shift packing). -/
def getLane (w sh : ℕ) : ℕ := w / 2 ^ sh % 256

/-- Python's `range(pixel1, pixel2 + 1)` over ints, as a list (empty when
the upper bound does not exceed the lower one). -/
def pyRange (a b : ℤ) : List ℤ := (List.range (b - a).toNat).map (fun (j : ℕ) => a + (j : ℤ))

/-- The loop of `Neopixel.set_pixel_line` (`neopixel.py` lines 197-206):
call `set_pixel` on each index in turn; a raised exception stops the loop,
leaving the mutations already performed in place.  Returns the final state
and whether the loop ran to completion. -/
def runPixels (rgb_w : List ℤ) : Neopixel → List ℤ → Neopixel × Bool
  | self, [] => (self, true)
  | self, i :: rest =>
    match self.set_pixel i rgb_w with
    | none => (self, false)
    | some s => runPixels rgb_w s rest

/-- `Neopixel.set_pixel_line` (`neopixel.py` lines 197-206):
`for i in range(pixel1, pixel2 + 1): self.set_pixel(i, rgb_w)`. -/
def Neopixel.set_pixel_line (self : Neopixel) (pixel1 pixel2 : ℤ) (rgb_w : List ℤ) :
    Neopixel × Bool :=
  runPixels rgb_w self (pyRange pixel1 (pixel2 + 1))

/-- Python's `a[i:]` slice of a list for an arbitrary int `i`. -/
def pySliceFrom (l : List ℕ) (i : ℤ) : List ℕ :=
  let n : ℤ := l.length
  (if i < 0 then max (n + i) 0 else min i n).toNat |> l.drop

/-- Python's `a[:j]` slice of a list for an arbitrary int `j`. -/
def pySliceTo (l : List ℕ) (j : ℤ) : List ℕ :=
  let n : ℤ := l.length
  (if j < 0 then max (n + j) 0 else min j n).toNat |> l.take

/-- `Neopixel.rotate_left` (`neopixel.py` lines 230-238):
apart from the `None` check there is no offset normalisation —
`self.pixels = self.pixels[k:] + self.pixels[:k]` with Python slice
semantics.  `none` models passing `None` explicitly; the Python default
argument is `1`, the same value the `None` check substitutes. -/
def Neopixel.rotate_left (self : Neopixel) (num_of_pixels : Option ℤ) : Neopixel :=
  let k := num_of_pixels.getD 1
  { self with pixels := pySliceFrom self.pixels k ++ pySliceTo self.pixels k }

/-- `Neopixel.rotate_right` (`neopixel.py` lines 241-250): negates the
offset and performs the same slice-and-append as `rotate_left`. -/
def Neopixel.rotate_right (self : Neopixel) (num_of_pixels : Option ℤ) : Neopixel :=
  let k0 := num_of_pixels.getD 1
  let k := -1 * k0
  { self with pixels := pySliceFrom self.pixels k ++ pySliceTo self.pixels k }

/-- The loop-invariant data of `Neopixel.segment_gradient` (`neopixel.py`
lines 136-192): the segment width `step`, the right endpoint `pixel2`, the
(post-override) `rainbow` flag and the colour list. -/
structure SegCtx where
  step : ℤ
  pixel2 : ℤ
  rainbow : Bool
  color_list : List (List ℤ)
deriving Repr

/-- The mutable locals of `segment_gradient`'s loops: the strip being
mutated and the `start_pixel` / `end_pixel` / `reverse` variables. -/
structure SegSt where
  strip : Neopixel
  start_pixel : ℤ
  end_pixel : ℤ
  rev : Bool
deriving Repr

/-- One iteration of the inner `for j in range(...)` body of
`segment_gradient`, for outer index `i` with colour `color`.  Returns the
updated locals and `true` to continue, `false` for the rainbow `break`;
`none` models a raised exception (`ZeroDivisionError` when a segment's span
is zero, `IndexError` from `color_list[i+1]` or short colour tuples, or a
failing `set_pixel`).  `round((second[k] - first[k]) * fraction + first[k])`
with `fraction = j / (end_pixel - start_pixel)` is, as an exact rational,
`round(((second[k] - first[k]) * j + first[k] * d) / d)` for
`d = end_pixel - start_pixel`. -/
def segBody (ctx : SegCtx) (i : ℕ) (color : List ℤ) (j : ℕ) (st : SegSt) :
    Option (SegSt × Bool) := do
  let start_pixel : ℤ := (i : ℤ) * ctx.step
  let first := color
  let end0 := start_pixel + ctx.step
  let (end_pixel, second) ←
    if end0 ≥ ctx.pixel2 then do
      let c0 ← ctx.color_list.get? 0
      pure (ctx.pixel2, c0)
    else do
      let c1 ← ctx.color_list.get? (i + 1)
      pure (end0, c1)
  let d := end_pixel - start_pixel
  if d = 0 then none
  else do
    let f0 ← first.get? 0
    let f1 ← first.get? 1
    let f2 ← first.get? 2
    let s0 ← second.get? 0
    let s1 ← second.get? 1
    let s2 ← second.get? 2
    let red := pyRound (Rat.divInt ((s0 - f0) * j + f0 * d) d)
    let green := pyRound (Rat.divInt ((s1 - f1) * j + f1 * d) d)
    let blue := pyRound (Rat.divInt ((s2 - f2) * j + f2 * d) d)
    let strip' ←
      if first.length = 4 ∧ 'W' ∈ st.strip.mode then do
        let f3 ← first.get? 3
        let s3 ← second.get? 3
        let white := pyRound (Rat.divInt ((s3 - f3) * j + f3 * d) d)
        if ¬ st.rev then st.strip.set_pixel (start_pixel + j) [red, green, blue, white]
        else st.strip.set_pixel (end_pixel - j) [red, green, blue, white]
      else
        if ¬ st.rev then st.strip.set_pixel (start_pixel + j) [red, green, blue]
        else st.strip.set_pixel (end_pixel - j) [red, green, blue]
    if ctx.rainbow then
      if end_pixel + j > ctx.pixel2 + 2 then
        pure (⟨strip', start_pixel, end_pixel, st.rev⟩, false)
      else
        pure (⟨strip', start_pixel, end_pixel, st.rev⟩, true)
    else
      pure (⟨strip', end_pixel, ctx.pixel2, true⟩, true)

/-- The inner `for j in ...` loop of `segment_gradient` over the list of
`j` values fixed at loop entry, honouring the rainbow `break`. -/
def segInner (ctx : SegCtx) (i : ℕ) (color : List ℤ) : SegSt → List ℕ → Option SegSt
  | st, [] => some st
  | st, j :: js => do
    let (st', cont) ← segBody ctx i color j st
    if cont then segInner ctx i color st' js else pure st'

/-- The outer `for i, color in enumerate(color_list)` loop of
`segment_gradient`; the inner loop's range is recomputed at each entry from
the current `start_pixel` / `end_pixel`. -/
def segOuter (ctx : SegCtx) : SegSt → List (ℕ × List ℤ) → Option SegSt
  | st, [] => some st
  | st, (i, color) :: rest => do
    let js := List.range (st.end_pixel - st.start_pixel + 1).toNat
    let st' ← segInner ctx i color st js
    segOuter ctx st' rest

/-- `Neopixel.segment_gradient` (`neopixel.py` lines 136-192).  Returns
immediately when the span is empty; `len(color_list) = 0` raises
`ZeroDivisionError` in `(pixel2+1)//divs` (Python `//` is floor division,
`Int.fdiv`); a colour list of length exactly 4 overrides the `reverse` and
`rainbow` arguments before any other use of them. -/
def Neopixel.segment_gradient (self : Neopixel) (color_list : List (List ℤ))
    (pixel1 pixel2 : ℤ) (reverse rainbow : Bool) : Option Neopixel :=
  if pixel2 - pixel1 = 0 then some self
  else
    let divs := color_list.length
    if divs = 0 then none
    else
      let step := (pixel2 + 1).fdiv divs
      let rr : Bool × Bool := if divs = 4 then (false, true) else (reverse, rainbow)
      (segOuter ⟨step, pixel2, rr.2, color_list⟩
          ⟨self, pixel1, step, rr.1⟩ color_list.enum).map SegSt.strip

/-- The six valid 3-letter RGB mode permutations named by the spec. -/
def validModes3 : List (List Char) :=
  [['R','G','B'], ['R','B','G'], ['G','R','B'], ['G','B','R'], ['B','R','G'], ['B','G','R']]

/-- The twenty-four valid 4-letter RGBW mode permutations named by the
spec. -/
def validModes4 : List (List Char) :=
  [['R','G','B','W'], ['R','G','W','B'], ['R','B','G','W'], ['R','B','W','G'],
   ['R','W','G','B'], ['R','W','B','G'],
   ['G','R','B','W'], ['G','R','W','B'], ['G','B','R','W'], ['G','B','W','R'],
   ['G','W','R','B'], ['G','W','B','R'],
   ['B','R','G','W'], ['B','R','W','G'], ['B','G','R','W'], ['B','G','W','R'],
   ['B','W','R','G'], ['B','W','G','R'],
   ['W','R','G','B'], ['W','R','B','G'], ['W','G','R','B'], ['W','G','B','R'],
   ['W','B','R','G'], ['W','B','G','R']]

/-- The six byte-lane assignments `(shiftB, shiftR, shiftG)` a valid
3-letter mode can produce. -/
def laneTuples3 : List (ℕ × ℕ × ℕ) :=
  [(0, 8, 16), (0, 16, 8), (8, 0, 16), (8, 16, 0), (16, 0, 8), (16, 8, 0)]

/-- The twenty-four byte-lane assignments `(shiftW, shiftB, shiftR, shiftG)`
a valid 4-letter mode can produce. -/
def laneTuples4 : List (ℕ × ℕ × ℕ × ℕ) :=
  [(0, 8, 16, 24), (0, 8, 24, 16), (0, 16, 8, 24), (0, 16, 24, 8),
   (0, 24, 8, 16), (0, 24, 16, 8),
   (8, 0, 16, 24), (8, 0, 24, 16), (8, 16, 0, 24), (8, 16, 24, 0),
   (8, 24, 0, 16), (8, 24, 16, 0),
   (16, 0, 8, 24), (16, 0, 24, 8), (16, 8, 0, 24), (16, 8, 24, 0),
   (16, 24, 0, 8), (16, 24, 8, 0),
   (24, 0, 8, 16), (24, 0, 16, 8), (24, 8, 0, 16), (24, 8, 16, 0),
   (24, 16, 0, 8), (24, 16, 8, 0)]

/-- The one-LED `"RGB"` strip that `pyInit 1 "RGB"` constructs (a concrete
state for witnesses and counterexamples). -/
def exStrip1 : Neopixel :=
  { pixels := [0], mode := ['R','G','B'], shiftR := 16, shiftG := 8,
    shiftB := 0, shiftW := 0, num_leds := 1, brightnessvalue := 255 }

/-- The two-LED `"RGB"` strip that `pyInit 2 "RGB"` constructs. -/
def exStrip2 : Neopixel :=
  { pixels := [0, 0], mode := ['R','G','B'], shiftR := 16, shiftG := 8,
    shiftB := 0, shiftW := 0, num_leds := 2, brightnessvalue := 255 }

/-- The four-LED `"GRBW"` strip that `pyInit 4 "GRBW"` constructs. -/
def exStrip4W : Neopixel :=
  { pixels := [0, 0, 0, 0], mode := ['G','R','B','W'], shiftR := 16, shiftG := 24,
    shiftB := 8, shiftW := 0, num_leds := 4, brightnessvalue := 255 }

/-- The sixteen-LED `"GRB"` strip that `pyInit 16 "GRB"` constructs — the
configuration of the example program in `neopixel.py`'s `__main__`. -/
def exStrip16 : Neopixel :=
  { pixels := List.replicate 16 0, mode := ['G','R','B'], shiftR := 8, shiftG := 16,
    shiftB := 0, shiftW := 0, num_leds := 16, brightnessvalue := 255 }

/-! ## Helper lemmas -/

theorem exStrip1_eq : pyInit 1 ['R','G','B'] = some exStrip1 := by decide

theorem exStrip2_eq : pyInit 2 ['R','G','B'] = some exStrip2 := by decide

theorem exStrip4W_eq : pyInit 4 ['G','R','B','W'] = some exStrip4W := by decide

/-- `pyRound` never rounds a nonnegative rational below zero. -/
theorem pyRound_nonneg {q : ℚ} (h : 0 ≤ q) : 0 ≤ pyRound q := by
  have hnum : 0 ≤ q.num := Rat.num_nonneg.mpr h
  have hf : 0 ≤ q.num.fdiv q.den := Int.fdiv_nonneg hnum (Int.natCast_nonneg _)
  simp only [pyRound]
  split_ifs <;> omega

/-- `pyRound` of a rational at most `m` is at most `m`. -/
theorem pyRound_le {q : ℚ} {m : ℤ} (h : q ≤ (m : ℚ)) : pyRound q ≤ m := by
  have hd : (0 : ℤ) < (q.den : ℤ) := by exact_mod_cast q.den_pos
  have hnum : q.num ≤ (q.den : ℤ) * m := by
    have h' := Rat.le_def.mp h
    rw [Rat.intCast_num, Rat.intCast_den] at h'
    simpa [mul_comm] using h'
  have hfd := Int.fdiv_add_fmod q.num q.den
  have hr0 : 0 ≤ q.num.fmod q.den := Int.fmod_nonneg' _ hd
  have hrlt : q.num.fmod q.den < q.den := Int.fmod_lt_of_pos _ hd
  have hsw : q.num.fdiv q.den * (q.den : ℤ) = (q.den : ℤ) * q.num.fdiv q.den :=
    mul_comm _ _
  have hmono : q.num.fdiv q.den ≤ m := by
    by_contra hcon
    push_neg at hcon
    have h6 : (q.den : ℤ) * (m + 1) ≤ (q.den : ℤ) * (q.num.fdiv q.den) :=
      mul_le_mul_of_nonneg_left (by omega) hd.le
    rw [mul_add, mul_one] at h6
    omega
  have hstrict : (q.den : ℤ) ≤ 2 * (q.num - q.num.fdiv q.den * (q.den : ℤ)) →
      q.num.fdiv q.den + 1 ≤ m := by
    intro hhalf
    by_contra hcon
    push_neg at hcon
    have hm : m ≤ q.num.fdiv q.den := by omega
    have h6 : (q.den : ℤ) * m ≤ (q.den : ℤ) * (q.num.fdiv q.den) :=
      mul_le_mul_of_nonneg_left hm hd.le
    omega
  simp only [pyRound]
  split_ifs with h1 h2 h3
  · exact hmono
  · exact hstrict (by omega)
  · exact hmono
  · exact hstrict (by omega)

/-- A channel in `[0, 255]` scaled by a brightness in `[1, 255]` stays in
`[0, 255]` after Python rounding. -/
theorem scaled_channel_bounds {c b : ℤ} (hc : 0 ≤ c) (hc' : c ≤ 255)
    (hb : 1 ≤ b) (hb' : b ≤ 255) :
    0 ≤ pyRound (Rat.divInt (c * b) 255) ∧ pyRound (Rat.divInt (c * b) 255) ≤ 255 := by
  refine ⟨pyRound_nonneg (Rat.divInt_nonneg (by positivity) (by norm_num)), pyRound_le ?_⟩
  have h255 : ((255 : ℤ) : ℚ) = Rat.divInt (255 * 255) 255 := by
    rw [Rat.divInt_eq_div]
    push_cast
    norm_num
  rw [h255, Rat.divInt_le_divInt (by norm_num) (by norm_num)]
  nlinarith

/-- Four 8-bit fields OR-ed into disjoint byte lanes form their sum. -/
theorem pack_or_eq_sum (x0 x1 x2 x3 : ℕ) (h0 : x0 < 256) (h1 : x1 < 256) (h2 : x2 < 256) :
    x0 ||| x1 <<< 8 ||| x2 <<< 16 ||| x3 <<< 24 =
      x0 + x1 * 2 ^ 8 + x2 * 2 ^ 16 + x3 * 2 ^ 24 := by
  have e1 : x1 <<< 8 = 2 ^ 8 * x1 := by rw [Nat.shiftLeft_eq]; ring
  have e2 : x2 <<< 16 = 2 ^ 16 * x2 := by rw [Nat.shiftLeft_eq]; ring
  have e3 : x3 <<< 24 = 2 ^ 24 * x3 := by rw [Nat.shiftLeft_eq]; ring
  have s1 : x0 ||| x1 <<< 8 = 2 ^ 8 * x1 + x0 := by
    rw [e1, Nat.or_comm, ← Nat.mul_add_lt_is_or h0]
  have s2 : x0 ||| x1 <<< 8 ||| x2 <<< 16 = 2 ^ 16 * x2 + (2 ^ 8 * x1 + x0) := by
    rw [s1, e2, Nat.or_comm, ← Nat.mul_add_lt_is_or (by omega)]
  have s3 : x0 ||| x1 <<< 8 ||| x2 <<< 16 ||| x3 <<< 24 =
      2 ^ 24 * x3 + (2 ^ 16 * x2 + (2 ^ 8 * x1 + x0)) := by
    rw [s2, e3, Nat.or_comm, ← Nat.mul_add_lt_is_or (by omega)]
  rw [s3]; ring

/-- Reading the four byte lanes back out of the packed sum. -/
theorem lanes_of_sum (x0 x1 x2 x3 : ℕ) (h0 : x0 < 256) (h1 : x1 < 256)
    (h2 : x2 < 256) (h3 : x3 < 256) :
    getLane (x0 + x1 * 2 ^ 8 + x2 * 2 ^ 16 + x3 * 2 ^ 24) 0 = x0 ∧
    getLane (x0 + x1 * 2 ^ 8 + x2 * 2 ^ 16 + x3 * 2 ^ 24) 8 = x1 ∧
    getLane (x0 + x1 * 2 ^ 8 + x2 * 2 ^ 16 + x3 * 2 ^ 24) 16 = x2 ∧
    getLane (x0 + x1 * 2 ^ 8 + x2 * 2 ^ 16 + x3 * 2 ^ 24) 24 = x3 ∧
    x0 + x1 * 2 ^ 8 + x2 * 2 ^ 16 + x3 * 2 ^ 24 < 2 ^ 32 := by
  simp only [getLane]
  norm_num
  omega

-- sanity checks of the embedding (kernel-evaluated)
example : pyRound (Rat.divInt 7 2) = 4 := by decide
example : pyRound (Rat.divInt 5 2) = 2 := by decide
example : pyRound (Rat.divInt 51 10) = 5 := by decide
example : pyRound (Rat.divInt (-5) 2) = -2 := by decide
example : pyRound (Rat.divInt (255 * 255) 255) = 255 := by decide
example :
    (pyInit 1 ['R','G','B']).map (fun s => (s.shiftR, s.shiftG, s.shiftB, s.shiftW)) =
      some (16, 8, 0, 0) := by decide
example :
    (pyInit 1 ['G','R','B','W']).map (fun s => (s.shiftR, s.shiftG, s.shiftB, s.shiftW)) =
      some (16, 24, 8, 0) := by decide
example :
    ((pyInit 2 ['G','R','B']).bind (fun s => s.set_pixel 0 [255, 0, 0])).map Neopixel.pixels =
      some [255 <<< 8, 0] := by decide
example :
    ((pyInit 1 ['R','G','B']).bind (fun s => s.set_pixel 0 [0, 0, 256])).map Neopixel.pixels =
      some [256] := by decide
example :
    ((pyInit 1 ['R','G','B']).bind (fun s => s.set_pixel (-1) [1, 2, 3])).isSome = true := by
  decide
example :
    ((pyInit 1 ['R','G','B']).bind (fun s => s.set_pixel 1 [1, 2, 3])) = none := by decide

/-! ## Claim C3: constructor validation -/

/-- C3 counterexample: the constructor performs no validation beyond what
`mode.index` forces.  `num_leds = 0` is accepted (the claim says it is
rejected), and so is the non-permutation mode string `"RGBR"`. -/
theorem pyInit_accepts_invalid_configs :
    (pyInit 0 ['R','G','B']).isSome = true ∧
    (pyInit 5 ['R','G','B','R']).isSome = true := by decide

/-- C3 (amended): construction fails iff the mode string lacks one of the
letters `'R'`, `'G'`, `'B'` (the failing `mode.index` call raises
`ValueError`); when `'W'` is in the mode set its own `index` call cannot
fail.  Duplicate or extra letters and non-positive `num_leds` are not
rejected. -/
theorem pyInit_none_iff (n : ℤ) (mode : List Char) :
    pyInit n mode = none ↔ ¬('R' ∈ mode ∧ 'G' ∈ mode ∧ 'B' ∈ mode) := by
  unfold pyInit
  split_ifs with h1 h2 h3 <;> simp_all

/-! ## Claim C7: brightness mutates only the brightness scalar -/

/-- C7: `brightness` leaves the packed-word array (and every other
buffer-observable field) unchanged, whatever its argument; only the
brightness scalar can change, so packed words keep the brightness in effect
when their pixel was last set. -/
theorem brightness_touches_only_scalar (s : Neopixel) (v : Option ℤ) :
    ((s.brightness v).2).pixels = s.pixels ∧
    ((s.brightness v).2).mode = s.mode ∧
    ((s.brightness v).2).shiftR = s.shiftR ∧
    ((s.brightness v).2).shiftG = s.shiftG ∧
    ((s.brightness v).2).shiftB = s.shiftB ∧
    ((s.brightness v).2).shiftW = s.shiftW ∧
    ((s.brightness v).2).num_leds = s.num_leds := by
  cases v <;> simp [Neopixel.brightness]

/-! ## Claim C8: brightness clamping -/

/-- C8: a non-`None` brightness argument is clamped to `[1, 255]`
(`0` behaves as `1`, `300` as `255`), and a `None` query returns the
current value without mutating any state. -/
theorem brightness_clamps (s : Neopixel) (v : ℤ) :
    (v < 1 → ((s.brightness (some v)).2).brightnessvalue = 1) ∧
    (255 < v → ((s.brightness (some v)).2).brightnessvalue = 255) ∧
    (1 ≤ v → v ≤ 255 → ((s.brightness (some v)).2).brightnessvalue = v) ∧
    s.brightness (some 0) = s.brightness (some 1) ∧
    s.brightness (some 300) = s.brightness (some 255) ∧
    s.brightness none = (some s.brightnessvalue, s) := by
  refine ⟨?_, ?_, ?_, ?_, ?_, rfl⟩ <;>
    · intros
      simp only [Neopixel.brightness]
      split_ifs <;> first | rfl | omega

/-- C8 witness: the clamping theorem applied to the concrete strip
`pyInit 2 "RGB"` at brightness argument `0`. -/
theorem brightness_clamps_witness :
    (0 : ℤ) < 1 ∧ ((exStrip2.brightness (some 0)).2).brightnessvalue = 1 :=
  ⟨by decide, (brightness_clamps exStrip2 0).1 (by decide)⟩

/-! ## Claim C2: rotate offset normalisation -/

/-- C2 counterexample: on the 2-LED strip with pixel 0 set, a zero offset
leaves the word sequence unchanged instead of behaving as offset `1`, and
the overflow offset `3 > num_leds` also leaves it unchanged instead of
rotating by `3 % 2`. -/
theorem rotate_zero_and_overflow_do_not_wrap :
    ((exStrip2.set_pixel 0 [255, 0, 0]).map (fun s => (s.rotate_left (some 0)).pixels) ≠
      (exStrip2.set_pixel 0 [255, 0, 0]).map (fun s => (s.rotate_left (some 1)).pixels)) ∧
    ((exStrip2.set_pixel 0 [255, 0, 0]).map (fun s => (s.rotate_left (some 3)).pixels) ≠
      (exStrip2.set_pixel 0 [255, 0, 0]).map (fun s => (s.rotate_left (some (3 % 2))).pixels)) := by
  decide

/-- C2 (amended): an unset (`None`) offset behaves as `1`; a zero offset is
the identity; a negative offset in `[-num_leds, -1]` wraps modulo
`num_leds` (it equals rotating by `offset + num_leds`); an offset of
magnitude beyond `num_leds` leaves the word sequence unchanged rather than
wrapping; and `rotate_right(k)` is exactly `rotate_left(-k)`. -/
theorem rotate_offset_semantics (s : Neopixel) (k : ℤ) :
    (s.rotate_left none = s.rotate_left (some 1)) ∧
    ((s.rotate_left (some 0)).pixels = s.pixels) ∧
    (-(s.pixels.length : ℤ) ≤ k → k < 0 →
      s.rotate_left (some k) = s.rotate_left (some (k + s.pixels.length))) ∧
    ((s.pixels.length : ℤ) < k → (s.rotate_left (some k)).pixels = s.pixels) ∧
    (k < -(s.pixels.length : ℤ) → (s.rotate_left (some k)).pixels = s.pixels) ∧
    (s.rotate_right (some k) = s.rotate_left (some (-k))) ∧
    (s.rotate_right none = s.rotate_left (some (-1))) := by
  refine ⟨rfl, ?_, ?_, ?_, ?_, ?_, ?_⟩
  · simp [Neopixel.rotate_left, pySliceFrom, pySliceTo]
  · intro h1 h2
    have e1 : (if k < 0 then max ((s.pixels.length : ℤ) + k) 0 else min k s.pixels.length) =
        (if k + (s.pixels.length : ℤ) < 0 then
          max ((s.pixels.length : ℤ) + (k + s.pixels.length)) 0
         else min (k + s.pixels.length) s.pixels.length) := by
      split_ifs <;> omega
    simp only [Neopixel.rotate_left, pySliceFrom, pySliceTo, Option.getD_some]
    rw [e1]
  · intro h
    have e1 : (if k < 0 then max ((s.pixels.length : ℤ) + k) 0 else min k s.pixels.length).toNat =
        s.pixels.length := by split_ifs <;> omega
    simp only [Neopixel.rotate_left, pySliceFrom, pySliceTo, Option.getD_some, e1]
    simp
  · intro h
    have e1 : (if k < 0 then max ((s.pixels.length : ℤ) + k) 0 else min k s.pixels.length).toNat =
        0 := by split_ifs <;> omega
    simp only [Neopixel.rotate_left, pySliceFrom, pySliceTo, Option.getD_some, e1]
    simp
  · simp only [Neopixel.rotate_right, Neopixel.rotate_left, Option.getD_some, neg_one_mul]
  · simp only [Neopixel.rotate_right, Neopixel.rotate_left, Option.getD_none, Option.getD_some]
    norm_num

/-- C2 witness: the amended rotate semantics applied to the 2-LED strip at
offset `-1` (which wraps to `-1 + 2 = 1`). -/
theorem rotate_offset_semantics_witness :
    (-(exStrip2.pixels.length : ℤ) ≤ -1 ∧ (-1 : ℤ) < 0) ∧
    exStrip2.rotate_left (some (-1)) =
      exStrip2.rotate_left (some (-1 + exStrip2.pixels.length)) :=
  ⟨⟨by decide, by decide⟩,
    (rotate_offset_semantics exStrip2 (-1)).2.2.1 (by decide) (by decide)⟩

/-! ## Claim C5: out-of-range `set_pixel` indices -/

/-- C5 counterexample: on a 1-LED strip, `set_pixel(-1, c)` does not raise
`IndexError` — Python sequence indexing wraps it to the last pixel and the
buffer is mutated. -/
theorem set_pixel_negative_index_succeeds :
    ((pyInit 1 ['R','G','B']).bind (fun s => s.set_pixel (-1) [10, 20, 30])).isSome = true ∧
    ((pyInit 1 ['R','G','B']).bind (fun s => s.set_pixel (-1) [10, 20, 30])).map
      Neopixel.pixels ≠ some [0] := by decide

/-- C5 (amended): `set_pixel` fails (raising, with the buffer unchanged)
exactly for indices at or beyond `num_leds` or strictly below `-num_leds`;
a negative index in `[-num_leds, -1]` wraps Python-style, behaving as
`index + num_leds`. -/
theorem set_pixel_index_semantics (s : Neopixel) (i : ℤ) (c : List ℤ) :
    ((s.pixels.length : ℤ) ≤ i → s.set_pixel i c = none) ∧
    (i < -(s.pixels.length : ℤ) → s.set_pixel i c = none) ∧
    (-(s.pixels.length : ℤ) ≤ i → i < 0 →
      s.set_pixel i c = s.set_pixel (i + (s.pixels.length : ℤ)) c) := by
  cases hw : s.packedWord c with
  | none => simp [Neopixel.set_pixel, hw]
  | some w =>
    refine ⟨?_, ?_, ?_⟩
    · intro h
      simp only [Neopixel.set_pixel, hw, Option.bind_eq_bind, Option.some_bind]
      have hc : ¬(-(s.pixels.length : ℤ) ≤ i ∧ i < (s.pixels.length : ℤ)) := by omega
      rw [if_neg hc]
    · intro h
      simp only [Neopixel.set_pixel, hw, Option.bind_eq_bind, Option.some_bind]
      have hc : ¬(-(s.pixels.length : ℤ) ≤ i ∧ i < (s.pixels.length : ℤ)) := by omega
      rw [if_neg hc]
    · intro h1 h2
      simp only [Neopixel.set_pixel, hw, Option.bind_eq_bind, Option.some_bind]
      have c1 : -(s.pixels.length : ℤ) ≤ i ∧ i < (s.pixels.length : ℤ) := ⟨h1, by omega⟩
      have c2 : -(s.pixels.length : ℤ) ≤ i + (s.pixels.length : ℤ) ∧
          i + (s.pixels.length : ℤ) < (s.pixels.length : ℤ) := ⟨by omega, by omega⟩
      rw [if_pos c1, if_pos c2, if_pos (show i < 0 from h2),
          if_neg (show ¬ i + (s.pixels.length : ℤ) < 0 by omega)]

/-- C5 witness: the amended index semantics applied to the 2-LED strip at
the too-large index `2`, where `set_pixel` does fail. -/
theorem set_pixel_index_semantics_witness :
    ((exStrip2.pixels.length : ℤ) ≤ 2) ∧ exStrip2.set_pixel 2 [1, 2, 3] = none :=
  ⟨by decide, (set_pixel_index_semantics exStrip2 2 [1, 2, 3]).1 (by decide)⟩

/-! ## Claim C6: rotate round-trip -/

/-- C6: for `0 ≤ k ≤ num_leds` (on a buffer whose word array has the
constructed length), `rotate_left(k)` followed by `rotate_right(k)`
restores the state exactly. -/
theorem rotate_left_right_roundtrip (s : Neopixel) (k : ℤ)
    (hwf : s.num_leds = (s.pixels.length : ℤ)) (h0 : 0 ≤ k) (h1 : k ≤ s.num_leds) :
    (s.rotate_left (some k)).rotate_right (some k) = s := by
  have hk : k ≤ (s.pixels.length : ℤ) := hwf ▸ h1
  have e1 : (if k < 0 then max ((s.pixels.length : ℤ) + k) 0 else min k s.pixels.length).toNat =
      k.toNat := by split_ifs <;> omega
  simp only [Neopixel.rotate_left, pySliceFrom, pySliceTo, Option.getD_some, e1]
  set l := s.pixels with hl
  set kn := k.toNat with hkn
  have hknle : kn ≤ l.length := by omega
  have hlen : (l.drop kn ++ l.take kn).length = l.length := by
    simp [List.length_drop, List.length_take]
    omega
  rcases eq_or_lt_of_le h0 with h | h
  · have hk0 : kn = 0 := by omega
    simp only [Neopixel.rotate_right, Neopixel.rotate_left, pySliceFrom, pySliceTo,
      Option.getD_some, hk0, List.drop_zero, List.take_zero, List.append_nil]
    have e2 : (if -1 * k < 0 then max ((l.length : ℤ) + -1 * k) 0
        else min (-1 * k) (l.length : ℤ)).toNat = 0 := by
      split_ifs <;> omega
    rw [e2]
    simp
  · simp only [Neopixel.rotate_right, pySliceFrom, pySliceTo, Option.getD_some]
    have e2 : (if -1 * k < 0 then
          max (((l.drop kn ++ l.take kn).length : ℤ) + -1 * k) 0
        else min (-1 * k) ((l.drop kn ++ l.take kn).length : ℤ)).toNat =
        l.length - kn := by
      rw [hlen]
      split_ifs <;> omega
    rw [e2]
    have hdl : (l.drop kn).length = l.length - kn := by simp
    rw [show l.length - kn = (l.drop kn).length from hdl.symm, List.drop_left, List.take_left,
      List.take_append_drop]

/-- C6 witness: the round-trip theorem on the 2-LED strip with `k = 1`. -/
theorem rotate_left_right_roundtrip_witness :
    (exStrip2.num_leds = (exStrip2.pixels.length : ℤ) ∧ (0 : ℤ) ≤ 1 ∧
      (1 : ℤ) ≤ exStrip2.num_leds) ∧
    (exStrip2.rotate_left (some 1)).rotate_right (some 1) = exStrip2 :=
  ⟨⟨by decide, by decide, by decide⟩,
    rotate_left_right_roundtrip exStrip2 1 (by decide) (by decide) (by decide)⟩

/-! ## Claim C4: `set_pixel_line` range semantics -/

/-- The packed-word computation ignores the pixel array, so it is stable
under pixel writes. -/
theorem packedWord_ignores_pixels (s : Neopixel) (p : List ℕ) (c : List ℤ) :
    Neopixel.packedWord { s with pixels := p } c = s.packedWord c := rfl

/-- A `set_pixel` at a valid nonnegative index with a successfully packed
word writes exactly that slot. -/
theorem set_pixel_success {s : Neopixel} {c : List ℤ} {w : ℕ}
    (hw : s.packedWord c = some w) {i : ℤ} (h0 : 0 ≤ i)
    (h1 : i < (s.pixels.length : ℤ)) :
    s.set_pixel i c = some { s with pixels := s.pixels.set i.toNat w } := by
  simp only [Neopixel.set_pixel, hw, Option.bind_eq_bind, Option.some_bind]
  have hc : -(s.pixels.length : ℤ) ≤ i ∧ i < (s.pixels.length : ℤ) := ⟨by omega, h1⟩
  rw [if_pos hc, if_neg (show ¬ i < 0 by omega)]

/-- Running the `set_pixel_line` loop over in-range indices succeeds and
sets exactly the listed slots to the packed word. -/
theorem runPixels_in_range (c : List ℤ) (w : ℕ) (idxs : List ℤ) :
    ∀ (s : Neopixel), s.packedWord c = some w →
      (∀ i ∈ idxs, 0 ≤ i ∧ i < (s.pixels.length : ℤ)) →
      (runPixels c s idxs).2 = true ∧
      (runPixels c s idxs).1.pixels.length = s.pixels.length ∧
      ∀ j : ℕ, ((runPixels c s idxs).1.pixels)[j]? =
        if (j : ℤ) ∈ idxs then some w else s.pixels[j]? := by
  induction idxs with
  | nil =>
    intro s hw hmem
    simp [runPixels]
  | cons i rest ih =>
    intro s hw hmem
    obtain ⟨hi0, hin⟩ := hmem i (List.mem_cons_self _ _)
    have hset := set_pixel_success hw hi0 hin
    have hrun : runPixels c s (i :: rest) =
        runPixels c { s with pixels := s.pixels.set i.toNat w } rest := by
      simp [runPixels, hset]
    have hw1 : Neopixel.packedWord { s with pixels := s.pixels.set i.toNat w } c = some w := hw
    have hlen1 : ({ s with pixels := s.pixels.set i.toNat w } : Neopixel).pixels.length =
        s.pixels.length := by simp
    have hmem1 : ∀ i' ∈ rest, 0 ≤ i' ∧
        i' < (({ s with pixels := s.pixels.set i.toNat w } : Neopixel).pixels.length : ℤ) := by
      intro i' hi'
      rw [hlen1]
      exact hmem i' (List.mem_cons_of_mem _ hi')
    obtain ⟨ht, hl, hget⟩ := ih _ hw1 hmem1
    refine ⟨by rw [hrun]; exact ht, by rw [hrun, hl, hlen1], ?_⟩
    intro j
    rw [hrun, hget j]
    by_cases hjr : (j : ℤ) ∈ rest
    · rw [if_pos hjr, if_pos (by simp [hjr])]
    · rw [if_neg hjr]
      by_cases hji : (j : ℤ) = i
      · have hj : i.toNat = j := by omega
        rw [if_pos (by simp [List.mem_cons, hji])]
        simp only [hj]
        exact List.getElem?_set_self (by omega)
      · have hj : i.toNat ≠ j := by omega
        rw [if_neg (by simp [List.mem_cons, hji, hjr])]
        exact List.getElem?_set_ne hj

/-- Membership in the Python `range(a, b)` list. -/
theorem mem_pyRange {a b x : ℤ} : x ∈ pyRange a b ↔ a ≤ x ∧ x < b := by
  unfold pyRange
  constructor
  · intro hx
    obtain ⟨j, hj, rfl⟩ := List.mem_map.mp hx
    rw [List.mem_range] at hj
    omega
  · intro h
    refine List.mem_map.mpr ⟨(x - a).toNat, ?_, by omega⟩
    rw [List.mem_range]
    omega

/-- C4 counterexample: on a 1-LED strip, `set_pixel_line(0, 1, red)` fails
on index `1` only after writing pixel `0` (a partial write, not a fail-fast
validation); and with in-range endpoints `first = 1 > last = 0` on a 2-LED
strip the call sets nothing at all instead of the inclusive range
`[min, max] = [0, 1]`. -/
theorem set_pixel_line_partial_and_no_minmax :
    ((pyInit 1 ['R','G','B']).map (fun s =>
      ((s.set_pixel_line 0 1 [255, 0, 0]).2, (s.set_pixel_line 0 1 [255, 0, 0]).1.pixels)) =
      some (false, [255 <<< 16])) ∧
    ((pyInit 2 ['R','G','B']).map (fun s =>
      ((s.set_pixel_line 1 0 [255, 0, 0]).2, (s.set_pixel_line 1 0 [255, 0, 0]).1.pixels)) =
      some (true, [0, 0])) := by decide

/-- C4 (amended): `set_pixel_line(first, last, c)` iterates ascending over
`[first, last]` (a no-op when `first > last`, with no `min`/`max`
normalisation); validation is per-index inside the loop, so an out-of-range
endpoint aborts mid-call leaving earlier writes in place.  When `first ≥ 0`,
`last < num_leds` and the colour packs, the call completes and sets exactly
the indices of `[first, last]` to the packed word. -/
theorem set_pixel_line_in_range (s : Neopixel) (p1 p2 : ℤ) (c : List ℤ) (w : ℕ)
    (hw : s.packedWord c = some w) (h0 : 0 ≤ p1) (h2 : p2 < (s.pixels.length : ℤ)) :
    (s.set_pixel_line p1 p2 c).2 = true ∧
    ∀ j : ℕ, ((s.set_pixel_line p1 p2 c).1.pixels)[j]? =
      if p1 ≤ (j : ℤ) ∧ (j : ℤ) ≤ p2 then some w else s.pixels[j]? := by
  have hmem : ∀ i ∈ pyRange p1 (p2 + 1), 0 ≤ i ∧ i < (s.pixels.length : ℤ) := by
    intro i hi
    rw [mem_pyRange] at hi
    omega
  obtain ⟨ht, _, hget⟩ := runPixels_in_range c w (pyRange p1 (p2 + 1)) s hw hmem
  refine ⟨ht, ?_⟩
  intro j
  rw [Neopixel.set_pixel_line] at *
  rw [hget j]
  by_cases hj : p1 ≤ (j : ℤ) ∧ (j : ℤ) ≤ p2
  · rw [if_pos (mem_pyRange.mpr (by omega)), if_pos hj]
  · rw [if_neg (fun hmem' => hj (by have := mem_pyRange.mp hmem'; omega)), if_neg hj]

/-- C4 witness: filling `[0, 1]` on the 2-LED strip with pure red at full
brightness completes and stores `0xFF0000` in both slots. -/
theorem set_pixel_line_in_range_witness :
    (exStrip2.packedWord [255, 0, 0] = some (255 <<< 16) ∧ (0 : ℤ) ≤ 0 ∧
      (1 : ℤ) < exStrip2.pixels.length) ∧
    ((exStrip2.set_pixel_line 0 1 [255, 0, 0]).2 = true ∧
      ∀ j : ℕ, ((exStrip2.set_pixel_line 0 1 [255, 0, 0]).1.pixels)[j]? =
        if (0 : ℤ) ≤ (j : ℤ) ∧ (j : ℤ) ≤ 1 then some (255 <<< 16) else exStrip2.pixels[j]?) :=
  ⟨⟨by decide, by decide, by decide⟩,
    set_pixel_line_in_range exStrip2 0 1 [255, 0, 0] (255 <<< 16)
      (by decide) (by decide) (by decide)⟩

/-! ## Bit-packing helper lemmas for claim C1 -/

/-- OR of naturals with no common set bit is addition. -/
theorem lor_eq_add_of_and_eq_zero :
    ∀ (x y : ℕ), x &&& y = 0 → x ||| y = x + y := by
  intro x
  induction x using Nat.strong_induction_on with
  | _ x ih =>
    intro y h
    rcases Nat.eq_zero_or_pos x with rfl | hx
    · simp
    · have hdiv : x / 2 ||| y / 2 = x / 2 + y / 2 := by
        apply ih (x / 2) (by omega)
        rw [← Nat.and_div_two, h]
      have hor2 : (x ||| y) / 2 = x / 2 ||| y / 2 := Nat.or_div_two
      have h2 : ¬(x % 2 = 1 ∧ y % 2 = 1) := by
        intro hc
        have := Nat.and_mod_two_eq_one.mpr hc
        rw [h] at this
        omega
      rcases Nat.mod_two_eq_zero_or_one x with hx2 | hx2 <;>
        rcases Nat.mod_two_eq_zero_or_one y with hy2 | hy2
      · have hor0 : (x ||| y) % 2 = 0 := by
          rcases Nat.mod_two_eq_zero_or_one (x ||| y) with h' | h'
          · exact h'
          · rcases Nat.or_mod_two_eq_one.mp h' with hc | hc <;> omega
        omega
      · have hor1 : (x ||| y) % 2 = 1 := Nat.or_mod_two_eq_one.mpr (Or.inr hy2)
        omega
      · have hor1 : (x ||| y) % 2 = 1 := Nat.or_mod_two_eq_one.mpr (Or.inl hx2)
        omega
      · exact absurd ⟨hx2, hy2⟩ h2

/-- Two 8-bit values shifted to byte lanes at least 8 bits apart share no
set bit. -/
theorem and_shift_disjoint (x y s t : ℕ) (hx : x < 256) (h : s + 8 ≤ t) :
    x <<< s &&& y <<< t = 0 := by
  apply Nat.eq_of_testBit_eq
  intro i
  rw [Nat.testBit_and, Nat.testBit_shiftLeft, Nat.testBit_shiftLeft, Nat.zero_testBit]
  by_cases hti : i ≥ t
  · have h8 : 8 ≤ i - s := by omega
    have h2p : (256 : ℕ) ≤ 2 ^ (i - s) := by
      calc (256 : ℕ) = 2 ^ 8 := by norm_num
        _ ≤ 2 ^ (i - s) := Nat.pow_le_pow_right (by omega) h8
    have hxb : x.testBit (i - s) = false :=
      Nat.testBit_lt_two_pow (lt_of_lt_of_le hx h2p)
    simp [hxb]
  · simp [hti]

/-- Symmetric form of `and_shift_disjoint`. -/
theorem and_shift_disjoint' (x y s t : ℕ) (hx : x < 256) (hy : y < 256)
    (h : s + 8 ≤ t ∨ t + 8 ≤ s) : x <<< s &&& y <<< t = 0 := by
  rcases h with h | h
  · exact and_shift_disjoint x y s t hx h
  · rw [Nat.and_comm]
    exact and_shift_disjoint y x t s hy h

/-- Three 8-bit values OR-ed into pairwise-disjoint byte lanes form their
weighted sum. -/
theorem or3_eq_sum (b r g sB sR sG : ℕ)
    (hb : b < 256) (hr : r < 256) (hg : g < 256)
    (h1 : sB + 8 ≤ sR ∨ sR + 8 ≤ sB) (h2 : sB + 8 ≤ sG ∨ sG + 8 ≤ sB)
    (h3 : sR + 8 ≤ sG ∨ sG + 8 ≤ sR) :
    b <<< sB ||| r <<< sR ||| g <<< sG =
      b * 2 ^ sB + r * 2 ^ sR + g * 2 ^ sG := by
  have dBR := and_shift_disjoint' b r sB sR hb hr h1
  have dBG := and_shift_disjoint' b g sB sG hb hg h2
  have dRG := and_shift_disjoint' r g sR sG hr hg h3
  have d2 : (b <<< sB ||| r <<< sR) &&& g <<< sG = 0 := by
    rw [Nat.and_distrib_right, dBG, dRG]
    rfl
  have e1 : b <<< sB ||| r <<< sR = b <<< sB + r <<< sR :=
    lor_eq_add_of_and_eq_zero _ _ dBR
  rw [lor_eq_add_of_and_eq_zero _ _ d2, e1,
    Nat.shiftLeft_eq, Nat.shiftLeft_eq, Nat.shiftLeft_eq]

/-- Four 8-bit values OR-ed into pairwise-disjoint byte lanes form their
weighted sum. -/
theorem or4_eq_sum (w b r g sW sB sR sG : ℕ)
    (hw : w < 256) (hb : b < 256) (hr : r < 256) (hg : g < 256)
    (h1 : sW + 8 ≤ sB ∨ sB + 8 ≤ sW) (h2 : sW + 8 ≤ sR ∨ sR + 8 ≤ sW)
    (h3 : sW + 8 ≤ sG ∨ sG + 8 ≤ sW) (h4 : sB + 8 ≤ sR ∨ sR + 8 ≤ sB)
    (h5 : sB + 8 ≤ sG ∨ sG + 8 ≤ sB) (h6 : sR + 8 ≤ sG ∨ sG + 8 ≤ sR) :
    w <<< sW ||| b <<< sB ||| r <<< sR ||| g <<< sG =
      w * 2 ^ sW + b * 2 ^ sB + r * 2 ^ sR + g * 2 ^ sG := by
  have dWB := and_shift_disjoint' w b sW sB hw hb h1
  have dWR := and_shift_disjoint' w r sW sR hw hr h2
  have dWG := and_shift_disjoint' w g sW sG hw hg h3
  have dBR := and_shift_disjoint' b r sB sR hb hr h4
  have dBG := and_shift_disjoint' b g sB sG hb hg h5
  have dRG := and_shift_disjoint' r g sR sG hr hg h6
  have d2 : (w <<< sW ||| b <<< sB) &&& r <<< sR = 0 := by
    rw [Nat.and_distrib_right, dWR, dBR]
    rfl
  have d3 : (w <<< sW ||| b <<< sB ||| r <<< sR) &&& g <<< sG = 0 := by
    rw [Nat.and_distrib_right, Nat.and_distrib_right, dWG, dBG, dRG]
    rfl
  have e1 : w <<< sW ||| b <<< sB = w <<< sW + b <<< sB :=
    lor_eq_add_of_and_eq_zero _ _ dWB
  rw [lor_eq_add_of_and_eq_zero _ _ d3, lor_eq_add_of_and_eq_zero _ _ d2, e1,
    Nat.shiftLeft_eq, Nat.shiftLeft_eq, Nat.shiftLeft_eq, Nat.shiftLeft_eq]

/-- Setting an in-range brightness stores it unchanged. -/
theorem brightness_set_in_range (s : Neopixel) {b : ℤ} (h1 : 1 ≤ b) (h2 : b ≤ 255) :
    (s.brightness (some b)).2 = { s with brightnessvalue := b } := by
  simp only [Neopixel.brightness]
  rw [if_neg (by omega : ¬ b < 1), if_neg (by omega : ¬ b > 255)]

/-- Successful `packedWord` evaluation: with nonnegative shifts, nonnegative
scaled channels and a word below `2^32`, the packed word is exactly the
OR of the shifted scaled channels. -/
theorem packedWord_eq (s : Neopixel) (r g bl : ℤ) (tl : List ℤ)
    (h0 : 0 ≤ s.shiftW ∧ 0 ≤ s.shiftB ∧ 0 ≤ s.shiftR ∧ 0 ≤ s.shiftG)
    (hr : 0 ≤ pyRound (Rat.divInt (r * s.brightnessvalue) 255))
    (hg : 0 ≤ pyRound (Rat.divInt (g * s.brightnessvalue) 255))
    (hb : 0 ≤ pyRound (Rat.divInt (bl * s.brightnessvalue) 255))
    (hwh : 0 ≤ (if (r :: g :: bl :: tl).length = 4 ∧ 'W' ∈ s.mode then
        pyRound (Rat.divInt ((r :: g :: bl :: tl).getD 3 0 * s.brightnessvalue) 255) else 0))
    (hlt : ((if (r :: g :: bl :: tl).length = 4 ∧ 'W' ∈ s.mode then
          pyRound (Rat.divInt ((r :: g :: bl :: tl).getD 3 0 * s.brightnessvalue) 255)
        else 0).toNat <<< s.shiftW.toNat |||
        (pyRound (Rat.divInt (bl * s.brightnessvalue) 255)).toNat <<< s.shiftB.toNat |||
        (pyRound (Rat.divInt (r * s.brightnessvalue) 255)).toNat <<< s.shiftR.toNat |||
        (pyRound (Rat.divInt (g * s.brightnessvalue) 255)).toNat <<< s.shiftG.toNat) < 2 ^ 32) :
    s.packedWord (r :: g :: bl :: tl) = some
      ((if (r :: g :: bl :: tl).length = 4 ∧ 'W' ∈ s.mode then
          pyRound (Rat.divInt ((r :: g :: bl :: tl).getD 3 0 * s.brightnessvalue) 255)
        else 0).toNat <<< s.shiftW.toNat |||
        (pyRound (Rat.divInt (bl * s.brightnessvalue) 255)).toNat <<< s.shiftB.toNat |||
        (pyRound (Rat.divInt (r * s.brightnessvalue) 255)).toNat <<< s.shiftR.toNat |||
        (pyRound (Rat.divInt (g * s.brightnessvalue) 255)).toNat <<< s.shiftG.toNat) := by
  simp only [Neopixel.packedWord, List.get?_cons_zero, List.get?_cons_succ,
    Option.bind_eq_bind, Option.some_bind]
  rw [if_pos ⟨h0.1, h0.2.1, h0.2.2.1, h0.2.2.2, hr, hg, hb, hwh⟩, if_pos hlt]

/-! ## Claim C1: `set_pixel` packing round-trip -/

/-- Core packing lemma for a strip whose mode has no `'W'`: the white value
is zero, the three channel lanes read back, and the word fits in 24 bits. -/
theorem set_pixel_lanes_noW (S : Neopixel) (i r g bl : ℤ) (tl : List ℤ)
    (hb1 : 1 ≤ S.brightnessvalue) (hb2 : S.brightnessvalue ≤ 255)
    (hi0 : 0 ≤ i) (hi1 : i < (S.pixels.length : ℤ))
    (hr : 0 ≤ r ∧ r ≤ 255) (hg : 0 ≤ g ∧ g ≤ 255) (hbl : 0 ≤ bl ∧ bl ≤ 255)
    (hWm : 'W' ∉ S.mode) (hsW : S.shiftW = 0)
    (h0B : 0 ≤ S.shiftB) (h0R : 0 ≤ S.shiftR) (h0G : 0 ≤ S.shiftG)
    (htup : (S.shiftB.toNat, S.shiftR.toNat, S.shiftG.toNat) ∈ laneTuples3) :
    ∃ w : ℕ,
      S.set_pixel i (r :: g :: bl :: tl) =
        some { S with pixels := S.pixels.set i.toNat w } ∧
      getLane w S.shiftR.toNat =
        (pyRound (Rat.divInt ((r :: g :: bl :: tl).getD 0 0 * S.brightnessvalue) 255)).toNat ∧
      getLane w S.shiftG.toNat =
        (pyRound (Rat.divInt ((r :: g :: bl :: tl).getD 1 0 * S.brightnessvalue) 255)).toNat ∧
      getLane w S.shiftB.toNat =
        (pyRound (Rat.divInt ((r :: g :: bl :: tl).getD 2 0 * S.brightnessvalue) 255)).toNat ∧
      ('W' ∈ S.mode → getLane w S.shiftW.toNat =
        if (r :: g :: bl :: tl).length = 4 then
          (pyRound (Rat.divInt ((r :: g :: bl :: tl).getD 3 0 * S.brightnessvalue) 255)).toNat
        else 0) ∧
      ('W' ∉ S.mode → w < 2 ^ 24) := by
  have hrS := scaled_channel_bounds hr.1 hr.2 hb1 hb2
  have hgS := scaled_channel_bounds hg.1 hg.2 hb1 hb2
  have hblS := scaled_channel_bounds hbl.1 hbl.2 hb1 hb2
  have hnot4 : ¬((r :: g :: bl :: tl).length = 4 ∧ 'W' ∈ S.mode) := fun hc => hWm hc.2
  have hwh0 : (if (r :: g :: bl :: tl).length = 4 ∧ 'W' ∈ S.mode then
      pyRound (Rat.divInt ((r :: g :: bl :: tl).getD 3 0 * S.brightnessvalue) 255) else 0) = 0 :=
    if_neg hnot4
  simp only [laneTuples3, List.mem_cons, List.not_mem_nil, or_false] at htup
  rcases htup with h | h | h | h | h | h <;>
  · rw [Prod.mk.injEq, Prod.mk.injEq] at h
    obtain ⟨e1, e2, e3⟩ := h
    refine ⟨_, set_pixel_success
      (packedWord_eq S r g bl tl ⟨by omega, h0B, h0R, h0G⟩ hrS.1 hgS.1 hblS.1 hwh0.ge ?_)
      hi0 hi1, ?_, ?_, ?_, fun hWin => absurd hWin hWm, fun _ => ?_⟩
    · -- word < 2 ^ 32
      rw [hwh0, hsW]
      simp only [Int.toNat_zero, Nat.zero_shiftLeft, Nat.zero_or]
      rw [e1, e2, e3, or3_eq_sum] <;> norm_num <;> omega
    · -- R lane
      rw [hwh0, hsW]
      simp only [Int.toNat_zero, Nat.zero_shiftLeft, Nat.zero_or, List.getD_cons_zero,
        List.getD_cons_succ, getLane]
      rw [e1, e2, e3, or3_eq_sum] <;> norm_num <;> omega
    · rw [hwh0, hsW]
      simp only [Int.toNat_zero, Nat.zero_shiftLeft, Nat.zero_or, List.getD_cons_zero,
        List.getD_cons_succ, getLane]
      rw [e1, e2, e3, or3_eq_sum] <;> norm_num <;> omega
    · rw [hwh0, hsW]
      simp only [Int.toNat_zero, Nat.zero_shiftLeft, Nat.zero_or, List.getD_cons_zero,
        List.getD_cons_succ, getLane]
      rw [e1, e2, e3, or3_eq_sum] <;> norm_num <;> omega
    · rw [hwh0, hsW]
      simp only [Int.toNat_zero, Nat.zero_shiftLeft, Nat.zero_or]
      rw [e1, e2, e3, or3_eq_sum] <;> norm_num <;> omega

set_option maxHeartbeats 3200000 in
/-- Core packing lemma for a 3-channel colour on an RGBW-mode strip: the
white lane stays zero and the three channel lanes read back. -/
theorem set_pixel_lanes_W3 (S : Neopixel) (i r g bl : ℤ)
    (hb1 : 1 ≤ S.brightnessvalue) (hb2 : S.brightnessvalue ≤ 255)
    (hi0 : 0 ≤ i) (hi1 : i < (S.pixels.length : ℤ))
    (hr : 0 ≤ r ∧ r ≤ 255) (hg : 0 ≤ g ∧ g ≤ 255) (hbl : 0 ≤ bl ∧ bl ≤ 255)
    (hW : 'W' ∈ S.mode)
    (h0W : 0 ≤ S.shiftW) (h0B : 0 ≤ S.shiftB) (h0R : 0 ≤ S.shiftR) (h0G : 0 ≤ S.shiftG)
    (htup : (S.shiftW.toNat, S.shiftB.toNat, S.shiftR.toNat, S.shiftG.toNat) ∈ laneTuples4) :
    ∃ w : ℕ,
      S.set_pixel i [r, g, bl] =
        some { S with pixels := S.pixels.set i.toNat w } ∧
      getLane w S.shiftR.toNat =
        (pyRound (Rat.divInt (([r, g, bl] : List ℤ).getD 0 0 * S.brightnessvalue) 255)).toNat ∧
      getLane w S.shiftG.toNat =
        (pyRound (Rat.divInt (([r, g, bl] : List ℤ).getD 1 0 * S.brightnessvalue) 255)).toNat ∧
      getLane w S.shiftB.toNat =
        (pyRound (Rat.divInt (([r, g, bl] : List ℤ).getD 2 0 * S.brightnessvalue) 255)).toNat ∧
      ('W' ∈ S.mode → getLane w S.shiftW.toNat =
        if ([r, g, bl] : List ℤ).length = 4 then
          (pyRound (Rat.divInt (([r, g, bl] : List ℤ).getD 3 0 * S.brightnessvalue) 255)).toNat
        else 0) ∧
      ('W' ∉ S.mode → w < 2 ^ 24) := by
  have hrS := scaled_channel_bounds hr.1 hr.2 hb1 hb2
  have hgS := scaled_channel_bounds hg.1 hg.2 hb1 hb2
  have hblS := scaled_channel_bounds hbl.1 hbl.2 hb1 hb2
  have hnot4 : ¬(([r, g, bl] : List ℤ).length = 4 ∧ 'W' ∈ S.mode) := by simp
  have hwh0 : (if ([r, g, bl] : List ℤ).length = 4 ∧ 'W' ∈ S.mode then
      pyRound (Rat.divInt (([r, g, bl] : List ℤ).getD 3 0 * S.brightnessvalue) 255) else 0) = 0 :=
    if_neg hnot4
  simp only [laneTuples4, List.mem_cons, List.not_mem_nil, or_false] at htup
  rcases htup with h|h|h|h|h|h|h|h|h|h|h|h|h|h|h|h|h|h|h|h|h|h|h|h <;>
  · rw [Prod.mk.injEq, Prod.mk.injEq, Prod.mk.injEq] at h
    obtain ⟨e0, e1, e2, e3⟩ := h
    refine ⟨_, set_pixel_success
      (packedWord_eq S r g bl [] ⟨h0W, h0B, h0R, h0G⟩ hrS.1 hgS.1 hblS.1 hwh0.ge ?_)
      hi0 hi1, ?_, ?_, ?_, fun _ => ?_, fun hc => absurd hW hc⟩
    · rw [hwh0]
      simp only [Int.toNat_zero, Nat.zero_shiftLeft, Nat.zero_or]
      rw [e1, e2, e3, or3_eq_sum] <;> norm_num <;> omega
    · rw [hwh0]
      simp only [Int.toNat_zero, Nat.zero_shiftLeft, Nat.zero_or, List.getD_cons_zero,
        List.getD_cons_succ, getLane]
      rw [e1, e2, e3, or3_eq_sum] <;> norm_num <;> omega
    · rw [hwh0]
      simp only [Int.toNat_zero, Nat.zero_shiftLeft, Nat.zero_or, List.getD_cons_zero,
        List.getD_cons_succ, getLane]
      rw [e1, e2, e3, or3_eq_sum] <;> norm_num <;> omega
    · rw [hwh0]
      simp only [Int.toNat_zero, Nat.zero_shiftLeft, Nat.zero_or, List.getD_cons_zero,
        List.getD_cons_succ, getLane]
      rw [e1, e2, e3, or3_eq_sum] <;> norm_num <;> omega
    · rw [hwh0, if_neg (show ¬([r, g, bl] : List ℤ).length = 4 by simp)]
      simp only [Int.toNat_zero, Nat.zero_shiftLeft, Nat.zero_or, getLane]
      rw [e0, e1, e2, e3, or3_eq_sum] <;> norm_num <;> omega

set_option maxHeartbeats 3200000 in
/-- Core packing lemma for a 4-channel colour on an RGBW-mode strip: all
four channel lanes read back. -/
theorem set_pixel_lanes_W4 (S : Neopixel) (i r g bl wh : ℤ)
    (hb1 : 1 ≤ S.brightnessvalue) (hb2 : S.brightnessvalue ≤ 255)
    (hi0 : 0 ≤ i) (hi1 : i < (S.pixels.length : ℤ))
    (hr : 0 ≤ r ∧ r ≤ 255) (hg : 0 ≤ g ∧ g ≤ 255) (hbl : 0 ≤ bl ∧ bl ≤ 255)
    (hwh : 0 ≤ wh ∧ wh ≤ 255)
    (hW : 'W' ∈ S.mode)
    (h0W : 0 ≤ S.shiftW) (h0B : 0 ≤ S.shiftB) (h0R : 0 ≤ S.shiftR) (h0G : 0 ≤ S.shiftG)
    (htup : (S.shiftW.toNat, S.shiftB.toNat, S.shiftR.toNat, S.shiftG.toNat) ∈ laneTuples4) :
    ∃ w : ℕ,
      S.set_pixel i [r, g, bl, wh] =
        some { S with pixels := S.pixels.set i.toNat w } ∧
      getLane w S.shiftR.toNat =
        (pyRound (Rat.divInt (([r, g, bl, wh] : List ℤ).getD 0 0 * S.brightnessvalue) 255)).toNat ∧
      getLane w S.shiftG.toNat =
        (pyRound (Rat.divInt (([r, g, bl, wh] : List ℤ).getD 1 0 * S.brightnessvalue) 255)).toNat ∧
      getLane w S.shiftB.toNat =
        (pyRound (Rat.divInt (([r, g, bl, wh] : List ℤ).getD 2 0 * S.brightnessvalue) 255)).toNat ∧
      ('W' ∈ S.mode → getLane w S.shiftW.toNat =
        if ([r, g, bl, wh] : List ℤ).length = 4 then
          (pyRound (Rat.divInt (([r, g, bl, wh] : List ℤ).getD 3 0 * S.brightnessvalue) 255)).toNat
        else 0) ∧
      ('W' ∉ S.mode → w < 2 ^ 24) := by
  have hrS := scaled_channel_bounds hr.1 hr.2 hb1 hb2
  have hgS := scaled_channel_bounds hg.1 hg.2 hb1 hb2
  have hblS := scaled_channel_bounds hbl.1 hbl.2 hb1 hb2
  have hwhS := scaled_channel_bounds hwh.1 hwh.2 hb1 hb2
  have hwh4 : (if ([r, g, bl, wh] : List ℤ).length = 4 ∧ 'W' ∈ S.mode then
      pyRound (Rat.divInt (([r, g, bl, wh] : List ℤ).getD 3 0 * S.brightnessvalue) 255) else 0) =
      pyRound (Rat.divInt (([r, g, bl, wh] : List ℤ).getD 3 0 * S.brightnessvalue) 255) :=
    if_pos ⟨rfl, hW⟩
  simp only [laneTuples4, List.mem_cons, List.not_mem_nil, or_false] at htup
  rcases htup with h|h|h|h|h|h|h|h|h|h|h|h|h|h|h|h|h|h|h|h|h|h|h|h <;>
  · rw [Prod.mk.injEq, Prod.mk.injEq, Prod.mk.injEq] at h
    obtain ⟨e0, e1, e2, e3⟩ := h
    refine ⟨_, set_pixel_success
      (packedWord_eq S r g bl [wh] ⟨h0W, h0B, h0R, h0G⟩ hrS.1 hgS.1 hblS.1
        (by rw [hwh4]; exact hwhS.1) ?_)
      hi0 hi1, ?_, ?_, ?_, fun _ => ?_, fun hc => absurd hW hc⟩
    · rw [hwh4]
      simp only [List.getD_cons_zero, List.getD_cons_succ]
      rw [e0, e1, e2, e3, or4_eq_sum] <;> norm_num <;> omega
    · rw [hwh4]
      simp only [List.getD_cons_zero, List.getD_cons_succ, getLane]
      rw [e0, e1, e2, e3, or4_eq_sum] <;> norm_num <;> omega
    · rw [hwh4]
      simp only [List.getD_cons_zero, List.getD_cons_succ, getLane]
      rw [e0, e1, e2, e3, or4_eq_sum] <;> norm_num <;> omega
    · rw [hwh4]
      simp only [List.getD_cons_zero, List.getD_cons_succ, getLane]
      rw [e0, e1, e2, e3, or4_eq_sum] <;> norm_num <;> omega
    · rw [if_pos (show ([r, g, bl, wh] : List ℤ).length = 4 from rfl), hwh4]
      simp only [List.getD_cons_zero, List.getD_cons_succ, getLane]
      rw [e0, e1, e2, e3, or4_eq_sum] <;> norm_num <;> omega

set_option maxHeartbeats 3200000 in
/-- C1: on a buffer constructed with any valid 3- or 4-letter mode
permutation, with brightness set to any `b ∈ [1, 255]`, for every index in
`[0, num_leds)` and every colour of 3 or 4 channels each in `[0, 255]`,
`set_pixel` stores a packed word whose 8-bit lane at each channel's shift
holds `round(channel * b / 255)`; the white lane carries the 4th channel
exactly when the mode has `'W'` and the colour has 4 entries (a 4th channel
is silently ignored without `'W'`), and on a 3-channel buffer the word fits
in 24 bits (the top lane is zero). -/
theorem set_pixel_roundtrip (mode : List Char) (n : ℤ) (s0 : Neopixel)
    (b i : ℤ) (rgb_w : List ℤ)
    (hmode : mode ∈ validModes3 ∨ mode ∈ validModes4)
    (hinit : pyInit n mode = some s0)
    (hb : 1 ≤ b ∧ b ≤ 255)
    (hi : 0 ≤ i ∧ i < n)
    (hlen : rgb_w.length = 3 ∨ rgb_w.length = 4)
    (hch : ∀ c ∈ rgb_w, 0 ≤ c ∧ c ≤ 255) :
    ∃ w : ℕ,
      ((s0.brightness (some b)).2).set_pixel i rgb_w =
        some { (s0.brightness (some b)).2 with
               pixels := ((s0.brightness (some b)).2).pixels.set i.toNat w } ∧
      getLane w s0.shiftR.toNat = (pyRound (Rat.divInt (rgb_w.getD 0 0 * b) 255)).toNat ∧
      getLane w s0.shiftG.toNat = (pyRound (Rat.divInt (rgb_w.getD 1 0 * b) 255)).toNat ∧
      getLane w s0.shiftB.toNat = (pyRound (Rat.divInt (rgb_w.getD 2 0 * b) 255)).toNat ∧
      ('W' ∈ mode → getLane w s0.shiftW.toNat =
        if rgb_w.length = 4 then (pyRound (Rat.divInt (rgb_w.getD 3 0 * b) 255)).toNat
        else 0) ∧
      ('W' ∉ mode → w < 2 ^ 24) := by
  obtain ⟨hb1, hb2⟩ := hb
  obtain ⟨hi0, hi1⟩ := hi
  rcases rgb_w with _ | ⟨r, rgb_w⟩
  · simp at hlen
  rcases rgb_w with _ | ⟨g, rgb_w⟩
  · simp at hlen
  rcases rgb_w with _ | ⟨bl, rgb_w⟩
  · simp at hlen
  have hr := hch r (by simp)
  have hg := hch g (by simp)
  have hbl := hch bl (by simp)
  rcases rgb_w with _ | ⟨wh, rgb_w⟩
  · rcases hmode with hm | hm
    · fin_cases hm <;>
      · simp +decide [pyInit] at hinit
        subst hinit
        rw [brightness_set_in_range _ hb1 hb2]
        apply set_pixel_lanes_noW <;>
          first
            | exact hb1 | exact hb2 | exact hi0 | exact hr | exact hg | exact hbl
            | (simp only [List.length_replicate]; omega)
            | rfl
            | (simp +decide)
    · fin_cases hm <;>
      · simp +decide [pyInit] at hinit
        subst hinit
        rw [brightness_set_in_range _ hb1 hb2]
        apply set_pixel_lanes_W3 <;>
          first
            | exact hb1 | exact hb2 | exact hi0 | exact hr | exact hg | exact hbl
            | (simp only [List.length_replicate]; omega)
            | rfl
            | (simp +decide)
  · rcases rgb_w with _ | ⟨x, rgb_w⟩
    swap
    · simp at hlen
    have hwh := hch wh (by simp)
    rcases hmode with hm | hm
    · fin_cases hm <;>
      · simp +decide [pyInit] at hinit
        subst hinit
        rw [brightness_set_in_range _ hb1 hb2]
        apply set_pixel_lanes_noW <;>
          first
            | exact hb1 | exact hb2 | exact hi0 | exact hr | exact hg | exact hbl
            | (simp only [List.length_replicate]; omega)
            | rfl
            | (simp +decide)
    · fin_cases hm <;>
      · simp +decide [pyInit] at hinit
        subst hinit
        rw [brightness_set_in_range _ hb1 hb2]
        apply set_pixel_lanes_W4 <;>
          first
            | exact hb1 | exact hb2 | exact hi0 | exact hr | exact hg | exact hbl | exact hwh
            | (simp only [List.length_replicate]; omega)
            | rfl
            | (simp +decide)

/-- C1 witness: the round-trip theorem applied to the 2-LED `"RGB"` strip at
full brightness, pixel 0, colour `(255, 10, 0)`. -/
theorem set_pixel_roundtrip_witness :
    (['R','G','B'] ∈ validModes3 ∨ ['R','G','B'] ∈ validModes4) ∧
    ∃ w : ℕ,
      ((exStrip2.brightness (some 255)).2).set_pixel 0 [255, 10, 0] =
        some { (exStrip2.brightness (some 255)).2 with
               pixels := ((exStrip2.brightness (some 255)).2).pixels.set (0 : ℤ).toNat w } ∧
      getLane w exStrip2.shiftR.toNat =
        (pyRound (Rat.divInt (([255, 10, 0] : List ℤ).getD 0 0 * 255) 255)).toNat ∧
      getLane w exStrip2.shiftG.toNat =
        (pyRound (Rat.divInt (([255, 10, 0] : List ℤ).getD 1 0 * 255) 255)).toNat ∧
      getLane w exStrip2.shiftB.toNat =
        (pyRound (Rat.divInt (([255, 10, 0] : List ℤ).getD 2 0 * 255) 255)).toNat ∧
      ('W' ∈ ['R','G','B'] → getLane w exStrip2.shiftW.toNat =
        if ([255, 10, 0] : List ℤ).length = 4 then
          (pyRound (Rat.divInt (([255, 10, 0] : List ℤ).getD 3 0 * 255) 255)).toNat
        else 0) ∧
      ('W' ∉ ['R','G','B'] → w < 2 ^ 24) :=
  ⟨Or.inl (by decide),
    set_pixel_roundtrip ['R','G','B'] 2 exStrip2 255 0 [255, 10, 0]
      (Or.inl (by decide)) exStrip2_eq (by decide) (by decide) (by decide) (by decide)⟩

/-! ## Claim C9: four-colour gradients force rainbow mode -/

/-- C9: when the colour list has exactly 4 entries, `segment_gradient`
overrides its `reverse` and `rainbow` arguments (to `False` and `True`)
before any other use of them, so the call behaves identically to one made
with `reverse=False, rainbow=True`. -/
theorem segment_gradient_four_forces_flags (s : Neopixel) (color_list : List (List ℤ))
    (pixel1 pixel2 : ℤ) (rev rb : Bool) (h : color_list.length = 4) :
    s.segment_gradient color_list pixel1 pixel2 rev rb =
      s.segment_gradient color_list pixel1 pixel2 false true := by
  unfold Neopixel.segment_gradient
  simp [h]

/-- C9 witness: the override theorem on the 16-LED `"GRB"` strip with the
four-colour list of `neopixel.py`'s `__main__` example
(`segment_gradient(Rlist_rgb_w, reverse=False)`). -/
theorem segment_gradient_four_forces_flags_witness :
    ([[255, 0, 0], [255, 255, 0], [0, 255, 0], [0, 0, 255]] : List (List ℤ)).length = 4 ∧
    exStrip16.segment_gradient [[255, 0, 0], [255, 255, 0], [0, 255, 0], [0, 0, 255]]
        0 15 false false =
      exStrip16.segment_gradient [[255, 0, 0], [255, 255, 0], [0, 255, 0], [0, 0, 255]]
        0 15 false true :=
  ⟨by decide,
    segment_gradient_four_forces_flags exStrip16
      [[255, 0, 0], [255, 255, 0], [0, 255, 0], [0, 0, 255]] 0 15 false false (by decide)⟩

/-! ## Claim C10: scaled channels are not masked to 8 bits -/

/-- C10: `set_pixel` stores the scaled channel without masking it to its
8-bit lane.  On a `"RGB"` strip at brightness 255, the colour `(0, 0, 256)`
(blue channel above 255) stores the word `256`, whose green lane reads back
`1` even though green's scaled value is `round(0·255/255) = 0`; with the
blue channel masked to 8 bits (`256 & 0xFF = 0`) the stored word is `0`
with a zero green lane.  The per-lane round-trip property thus needs every
scaled channel to fit in `[0, 255]`. -/
theorem set_pixel_overflow_bleeds_into_neighbour_lane :
    ((pyInit 1 ['R','G','B']).bind (fun s => s.set_pixel 0 [0, 0, 256])).map
      Neopixel.pixels = some [256] ∧
    ((pyInit 1 ['R','G','B']).bind (fun s => s.set_pixel 0 [0, 0, 0])).map
      Neopixel.pixels = some [0] ∧
    getLane 256 8 = 1 ∧ getLane 0 8 = 0 ∧
    pyRound (Rat.divInt (0 * 255) 255) = 0 := by decide
